import Mathlib

/-!
Verification of the wallet ledger, pricing lookup and charging protocol of
the business-cac service.

The development shallowly embeds the TypeScript sources:

* `src/src/services/wallet.service.ts` — `WalletService.debit`, `credit`,
  `refund`, `reserveBalance`, `completeReservation`, `cancelReservation`,
  together with the persistence operations of `src/src/database/firestore.ts`
  they call (`createWalletTransaction`, `getWalletTransactionByReference`,
  `updateWalletTransactionStatus`, `updateCustomer`).
* `src/src/services/pricing.service.ts` — `getServiceCodeFromEndpoint`.
* the wallet middleware (`chargeWallet` / `processCharge`) — embedded as a
  state-transition function plus a small model of JavaScript async-function
  scheduling for the `res.json` override.

All monetary amounts are JavaScript numbers holding integers (kobo); they are
modelled as `Int`.  Wall-clock times and generated identifiers are modelled by
a logical clock `nextId` that advances at every record creation; generated
references (`generateReference`) are nondeterministic in the source and are
passed in as explicit oracle arguments.
-/

namespace BusinessCac

/-- Embeds `WalletTransactionType` of `firestore.ts`. -/
inductive TxnType where
  | credit
  | debit
deriving DecidableEq, Repr

/-- Embeds `WalletTransactionStatus` of `firestore.ts`. -/
inductive TxnStatus where
  | pending
  | completed
  | failed
  | reversed
deriving DecidableEq, Repr

/-- Embeds `PaymentMethod` of `firestore.ts`. -/
inductive PayMethod where
  | card
  | bank_transfer
  | admin
  | api_charge
  | refundPay
deriving DecidableEq, Repr

/-- Embeds `WalletTransaction` of `firestore.ts`: a persisted wallet transaction
record.  `id`, `createdAt` and `completedAt` are drawn from the logical
clock; `metadata` and `usageRecordId` carry no ledger meaning and are
omitted. -/
structure Txn where
  id : Nat
  customerId : String
  type : TxnType
  amount : Int
  balanceBefore : Int
  balanceAfter : Int
  description : String
  reference : String
  paymentMethod : Option PayMethod
  status : TxnStatus
  createdAt : Nat
  completedAt : Option Nat
deriving DecidableEq, Repr

/-- The persistent state seen by the wallet service: the customers collection
(as the map from customer id to `walletBalance`), the wallet-transactions
collection in creation order, and the logical clock used for generated ids
and dates. -/
structure DB where
  customers : String → Option Int
  transactions : List Txn
  nextId : Nat

/-- Embeds `database.getCustomer`, projected to the `walletBalance` field. -/
def getCustomer (db : DB) (customerId : String) : Option Int :=
  db.customers customerId

/-- Embeds `database.updateCustomer(customerId, \x7b walletBalance \x7d)`. -/
def updateCustomer (db : DB) (customerId : String) (walletBalance : Int) : DB :=
  { db with customers := fun c => if c = customerId then some walletBalance else db.customers c }

/-- Embeds `database.getWalletTransaction(transactionId)`. -/
def getTransaction (db : DB) (transactionId : Nat) : Option Txn :=
  db.transactions.find? (fun t => t.id = transactionId)

/-- Embeds `database.getWalletTransactionByReference(reference)`. -/
def getTransactionByReference (db : DB) (reference : String) : Option Txn :=
  db.transactions.find? (fun t => t.reference = reference)

/-- Embeds `database.createWalletTransaction(transactionData)`: allocates an id and
`createdAt` from the clock, sets `completedAt` exactly when the record is
created with status `completed`, and appends the record. -/
def createTransaction (db : DB) (customerId : String) (type : TxnType)
    (amount balanceBefore balanceAfter : Int) (description reference : String)
    (paymentMethod : Option PayMethod) (status : TxnStatus) : Txn × DB :=
  let t : Txn :=
    { id := db.nextId
      customerId := customerId
      type := type
      amount := amount
      balanceBefore := balanceBefore
      balanceAfter := balanceAfter
      description := description
      reference := reference
      paymentMethod := paymentMethod
      status := status
      createdAt := db.nextId
      completedAt := if status = TxnStatus.completed then some db.nextId else none }
  (t, { db with transactions := db.transactions ++ [t], nextId := db.nextId + 1 })

/-- Embeds `database.updateWalletTransactionStatus`:
sets the status and `completedAt := completedAt || (status === completed ? now : null)`. -/
def updateTransactionStatus (db : DB) (transactionId : Nat) (status : TxnStatus)
    (completedAt : Option Nat) : DB :=
  { db with transactions := db.transactions.map (fun t =>
      if t.id = transactionId then
        { t with status := status
                 completedAt := match completedAt with
                   | some d => some d
                   | none => if status = TxnStatus.completed then some db.nextId else none }
      else t) }

/-- The error classes thrown by `WalletService`.  `insufficientBalance`
carries the fields computed by the `InsufficientBalanceError` constructor:
`requiredAmount`, `currentBalance` and `shortfall = required - current`. -/
inductive WalletErr where
  | walletNotFound (customerId : String)
  | insufficientBalance (requiredAmount currentBalance shortfall : Int)
  | duplicateTransaction (reference : String)
  | transactionNotFound
  | invalidTransactionType
  | duplicateRefund
  | invalidTransactionStatus
deriving DecidableEq, Repr

/-- Embeds `WalletService.debit`.  The `reference` argument is the resolved reference
`options.reference || generateReference(...)` (reference generation is an
oracle).  The source order of effects is kept: customer load, balance check,
duplicate-reference check, transaction write, balance write. -/
def debit (db : DB) (customerId : String) (amountKobo : Int)
    (description reference : String) : Except WalletErr (Txn × DB) :=
  match getCustomer db customerId with
  | none => .error (.walletNotFound customerId)
  | some balanceBefore =>
    if balanceBefore < amountKobo then
      .error (.insufficientBalance amountKobo balanceBefore (amountKobo - balanceBefore))
    else
      match getTransactionByReference db reference with
      | some _ => .error (.duplicateTransaction reference)
      | none =>
        let balanceAfter := balanceBefore - amountKobo
        let create := createTransaction db customerId TxnType.debit amountKobo
          balanceBefore balanceAfter description reference
          (some PayMethod.api_charge) TxnStatus.completed
        .ok (create.1, updateCustomer create.2 customerId balanceAfter)

/-- Embeds `WalletService.credit`.  `paymentMethod` is `options.paymentMethod || card`;
no affordability check is performed. -/
def credit (db : DB) (customerId : String) (amountKobo : Int)
    (description reference : String) (paymentMethod : Option PayMethod) :
    Except WalletErr (Txn × DB) :=
  match getCustomer db customerId with
  | none => .error (.walletNotFound customerId)
  | some balanceBefore =>
    match getTransactionByReference db reference with
    | some _ => .error (.duplicateTransaction reference)
    | none =>
      let balanceAfter := balanceBefore + amountKobo
      let create := createTransaction db customerId TxnType.credit amountKobo
        balanceBefore balanceAfter description reference
        (some (paymentMethod.getD PayMethod.card)) TxnStatus.completed
      .ok (create.1, updateCustomer create.2 customerId balanceAfter)

/-- Embeds `WalletService.refund`.  `genRef` is the reference generated for the
compensating credit. -/
def refund (db : DB) (originalTransactionId : Nat) (reason genRef : String) :
    Except WalletErr (Txn × DB) :=
  match getTransaction db originalTransactionId with
  | none => .error .transactionNotFound
  | some originalTxn =>
    if originalTxn.type ≠ TxnType.debit then .error .invalidTransactionType
    else if originalTxn.status = TxnStatus.reversed then .error .duplicateRefund
    else
      match credit db originalTxn.customerId originalTxn.amount
        ("Refund: " ++ reason) genRef (some PayMethod.refundPay) with
      | .error e => .error e
      | .ok (t, db1) =>
        .ok (t, updateTransactionStatus db1 originalTransactionId TxnStatus.reversed none)

/-- Embeds `WalletService.reserveBalance`: affordability check, then a `pending`
transaction with the post-debit balance precomputed; the stored balance is not
touched.  No duplicate-reference check is performed by the source. -/
def reserveBalance (db : DB) (customerId : String) (amountKobo : Int)
    (description genRef : String) : Except WalletErr (Txn × DB) :=
  match getCustomer db customerId with
  | none => .error (.walletNotFound customerId)
  | some balanceBefore =>
    if balanceBefore < amountKobo then
      .error (.insufficientBalance amountKobo balanceBefore (amountKobo - balanceBefore))
    else
      let create := createTransaction db customerId TxnType.debit amountKobo
        balanceBefore (balanceBefore - amountKobo) description genRef
        (some PayMethod.api_charge) TxnStatus.pending
      .ok create

/-- Embeds `WalletService.completeReservation`: writes the precomputed `balanceAfter`
into the stored balance, then marks the transaction `completed` with an
explicit `completedAt`. -/
def completeReservation (db : DB) (transactionId : Nat) :
    Except WalletErr (Txn × DB) :=
  match getTransaction db transactionId with
  | none => .error .transactionNotFound
  | some transaction =>
    if transaction.status ≠ TxnStatus.pending then .error .invalidTransactionStatus
    else
      let db1 := updateCustomer db transaction.customerId transaction.balanceAfter
      let db2 := updateTransactionStatus db1 transactionId TxnStatus.completed (some db.nextId)
      .ok ({ transaction with status := TxnStatus.completed, completedAt := some db.nextId }, db2)

/-- Embeds `WalletService.cancelReservation`: marks the transaction `failed`; the
stored balance is untouched. -/
def cancelReservation (db : DB) (transactionId : Nat) : Except WalletErr DB :=
  match getTransaction db transactionId with
  | none => .error .transactionNotFound
  | some transaction =>
    if transaction.status ≠ TxnStatus.pending then .error .invalidTransactionStatus
    else .ok (updateTransactionStatus db transactionId TxnStatus.failed none)

/-! ### Pricing lookup: `PricingService.getServiceCodeFromEndpoint` -/

/-- Embeds the `knownServiceCodes` list of `getServiceCodeFromEndpoint`. -/
def knownServiceCodes : List String :=
  ["name-search", "name-registration", "company-registration",
   "drivers-license-verification", "passport-verification",
   "voters-card-verification", "passport-face-verification", "bvn-basic"]

/-- JavaScript `string.split(separator)` for a one-character separator,
over the character list of the string. -/
def splitOnChar (sep : Char) : List Char → List (List Char)
  | [] => [[]]
  | c :: cs =>
    let rest := splitOnChar sep cs
    if c = sep then [] :: rest
    else
      match rest with
      | [] => [[c]]
      | w :: ws => (c :: w) :: ws

/-- Computes `endpoint.split(query)[0].split(slash).filter(Boolean)`: the non-empty
path segments before any query string. -/
def pathSegments (endpoint : String) : List String :=
  ((splitOnChar '/' ((splitOnChar '?' endpoint.toList).headD [])).filter
    (fun w => w ≠ [])).map (fun w => String.mk w)

/-- The JavaScript regular-expression test for a digit anywhere in the
segment. -/
def segmentHasDigit (s : String) : Bool :=
  s.toList.any Char.isDigit

/-- The trailing fallback of `getServiceCodeFromEndpoint`: with at least two
segments, the second-to-last segment when the last contains a digit, else the
last segment; below two segments, the last segment or `null`. -/
def lastSegmentFallback (segments : List String) : Option String :=
  if 2 ≤ segments.length then
    let lastSegment := segments.getD (segments.length - 1) ""
    if segmentHasDigit lastSegment then some (segments.getD (segments.length - 2) "")
    else some lastSegment
  else
    match segments.getLast? with
    | some s => some s
    | none => none

/-- Embeds `PricingService.getServiceCodeFromEndpoint`: first segment matching a
known code, else the `business`-route convention, else the trailing
fallback. -/
def getServiceCodeFromEndpoint (endpoint : String) : Option String :=
  let segments := pathSegments endpoint
  match segments.find? (fun s => knownServiceCodes.contains s) with
  | some s => some s
  | none =>
    match segments.findIdx? (fun s => s = "business") with
    | some businessIndex =>
      if businessIndex + 1 < segments.length then
        let nextSegment := segments.getD (businessIndex + 1) ""
        if nextSegment = "identity" ∧ businessIndex + 2 < segments.length then
          some (segments.getD (businessIndex + 2) "")
        else some nextSegment
      else lastSegmentFallback segments
    | none => lastSegmentFallback segments

/-! ### Charging middleware: `chargeWallet` / `processCharge`

`processCharge` closes over a per-request `hasCharged` flag and
`req.walletContext`; invoking it is embedded as a transition on the request
context and the database.  The debit reference is generated
(`options.reference` is not passed), so each invocation takes the generated
reference as an oracle argument. -/

/-- Embeds `req.walletContext` as set up by `checkWalletBalance`. -/
structure WalletCtx where
  serviceCode : String
  priceKobo : Int
  charged : Bool
deriving DecidableEq, Repr

/-- The per-request state read and written by `processCharge`: the closure
flag `hasCharged`, `req.walletContext`, and `req.customer` (projected to its
id). -/
structure ChargeReq where
  hasCharged : Bool
  walletCtx : Option WalletCtx
  customerId : Option String
deriving Repr

/-- One invocation of `processCharge` at response status `statusCode`:
returns the boolean result together with the updated request state and
database, following the source's guard order (already-charged flags, free
service, missing customer, non-2xx) and charging through
`WalletService.debit` otherwise. -/
def processCharge (req : ChargeReq) (db : DB) (statusCode : Int)
    (genRef : String) : Bool × ChargeReq × DB :=
  if req.hasCharged then (true, req, db)
  else
    match req.walletCtx with
    | none => (true, req, db)
    | some w =>
      if w.charged then (true, req, db)
      else if w.priceKobo = 0 then (true, req, db)
      else
        match req.customerId with
        | none => (true, req, db)
        | some customerId =>
          if statusCode < 200 ∨ 300 ≤ statusCode then (true, req, db)
          else
            let req1 : ChargeReq := { req with hasCharged := true }
            match debit db customerId w.priceKobo
              ("API: " ++ w.serviceCode) genRef with
            | .ok (_, db1) =>
              (true, { req1 with walletCtx := some { w with charged := true } }, db1)
            | .error _ => (false, req1, db)

/-- Repeated invocations of `processCharge` for the same request, each with
its own response status and generated reference. -/
def processChargeRuns (req : ChargeReq) (db : DB) :
    List (Int × String) → ChargeReq × DB
  | [] => (req, db)
  | (statusCode, genRef) :: rest =>
    let step := processCharge req db statusCode genRef
    processChargeRuns step.2.1 step.2.2 rest

/-! ### JavaScript async scheduling of the `res.json` override

The `chargeWallet` middleware replaces `res.json` with a function that starts
`processCharge()` inside an `async` IIFE that is **not** awaited and then
immediately calls the original `res.json`.  JavaScript runs an async function
body synchronously up to its first `await` of an unresolved promise and
defers the rest; the deferred part resumes only after the current synchronous
execution — including sending the response — has finished.  The model below
captures exactly that scheduling for a single async call chain. -/

/-- Externally visible events on the charge path of one request. -/
inductive Ev where
  | responseSent
  | dbGetCustomer
  | dbGetTxnByReference
  | dbCreateTransaction
  | dbUpdateBalance
  | chargeCompleted
deriving DecidableEq, Repr

/-- A step of an async-function body: a synchronous effect, or an `await` of
an asynchronous operation whose completion produces the given event. -/
inductive AStep where
  | syncEv (e : Ev)
  | awaitOp (e : Ev)
deriving DecidableEq, Repr

/-- The events an async body performs before first suspending, and the
remaining steps it defers. -/
def syncSegment : List AStep → List Ev × List AStep
  | [] => ([], [])
  | AStep.syncEv e :: rest =>
    let p := syncSegment rest
    (e :: p.1, p.2)
  | AStep.awaitOp e :: rest => ([], AStep.awaitOp e :: rest)

/-- Draining the deferred steps once the event loop resumes them. -/
def drainDeferred : List AStep → List Ev
  | [] => []
  | AStep.syncEv e :: rest => e :: drainDeferred rest
  | AStep.awaitOp e :: rest => e :: drainDeferred rest

/-- The await structure of `await WalletService.debit(...)` followed by the
post-charge bookkeeping inside `processCharge`, on the path where a charge is
due: every database call is awaited, and `chargeCompleted` stands for the
return of `processCharge` after the successful debit. -/
def processChargeSteps : List AStep :=
  [AStep.awaitOp Ev.dbGetCustomer,
   AStep.awaitOp Ev.dbGetTxnByReference,
   AStep.awaitOp Ev.dbCreateTransaction,
   AStep.awaitOp Ev.dbUpdateBalance,
   AStep.syncEv Ev.chargeCompleted]

/-- The overridden `res.json`: the un-awaited async IIFE runs `body`
synchronously up to its first `await`, then `originalJson` sends the
response, and only then does the event loop drain the deferred remainder. -/
def resJsonOverride (body : List AStep) : List Ev :=
  let p := syncSegment body
  p.1 ++ [Ev.responseSent] ++ drainDeferred p.2

/-! ### Operation sequences for the ledger invariant -/

/-- The successful operations quantified over by the balance-consistency
invariant: `debit`, `credit` and `completeReservation` calls with their
arguments. -/
inductive WalletOp where
  | debitOp (customerId : String) (amountKobo : Int) (description reference : String)
  | creditOp (customerId : String) (amountKobo : Int) (description reference : String)
      (paymentMethod : Option PayMethod)
  | completeOp (transactionId : Nat)

/-- Run one operation; a failing call raises before writing anything, so it
leaves the database unchanged. -/
def runOp (db : DB) : WalletOp → DB
  | .debitOp cid a d r =>
    match debit db cid a d r with
    | .ok p => p.2
    | .error _ => db
  | .creditOp cid a d r pm =>
    match credit db cid a d r pm with
    | .ok p => p.2
    | .error _ => db
  | .completeOp tid =>
    match completeReservation db tid with
    | .ok p => p.2
    | .error _ => db

/-- Run a sequence of operations. -/
def runOps (db : DB) (ops : List WalletOp) : DB := ops.foldl runOp db

/-- The account's `completed` transactions, in creation order. -/
def completedFor (db : DB) (cid : String) : List Txn :=
  db.transactions.filter
    (fun t => decide (t.customerId = cid ∧ t.status = TxnStatus.completed))

/-- Walk a transaction list checking that each record's `balanceBefore`
equals the running balance; returns the final running balance when every
link matches. -/
def chainOk (b : Int) : List Txn → Option Int
  | [] => some b
  | t :: ts => if t.balanceBefore = b then chainOk t.balanceAfter ts else none

/-- The ledger invariant carried through an operation sequence that starts
from a transaction-free store `db0`: every stored transaction is `completed`,
creation times are fresh and strictly increasing, and for every account of
`db0` the completed history chains from the initial balance to the stored
balance. -/
structure LedgerInv (db0 db : DB) : Prop where
  allCompleted : ∀ t ∈ db.transactions, t.status = TxnStatus.completed
  createdLt : ∀ t ∈ db.transactions, t.createdAt < db.nextId
  createdMono : db.transactions.Pairwise (fun x y => x.createdAt < y.createdAt)
  chain : ∀ cid b0, getCustomer db0 cid = some b0 →
    ∃ bal, getCustomer db cid = some bal ∧ chainOk b0 (completedFor db cid) = some bal

/-- Discriminator used to state that a result is a `DuplicateTransaction`
failure. -/
def isDuplicateErr : Except WalletErr (Txn × DB) → Bool
  | .error (.duplicateTransaction _) => true
  | _ => false

/-! ### Concrete databases for witnesses and counterexamples -/

/-- A store holding one customer `A` with balance 1000 kobo and no
transactions. -/
def dbA : DB where
  customers := fun c => if c = "A" then some 1000 else none
  transactions := []
  nextId := 0

/-- A store holding one customer `A` with balance 100 kobo and no
transactions. -/
def dbSmall : DB where
  customers := fun c => if c = "A" then some 100 else none
  transactions := []
  nextId := 0

/-- Debiting customer `A` of `dbSmall` twice for the full balance with the
same reference `X`: the result of the second call. -/
def secondDebitResult : Except WalletErr (Txn × DB) :=
  match debit dbSmall "A" 100 "API: name-search" "X" with
  | .ok p => debit p.2 "A" 100 "API: name-search" "X"
  | .error e => .error e

/-- The completed debit of 100 kobo against customer `A` recorded in
`dbAfterX`. -/
def txnX : Txn where
  id := 0
  customerId := "A"
  type := TxnType.debit
  amount := 100
  balanceBefore := 1000
  balanceAfter := 900
  description := "API: name-search"
  reference := "X"
  paymentMethod := some PayMethod.api_charge
  status := TxnStatus.completed
  createdAt := 0
  completedAt := some 0

/-- A store holding customer `A` with balance 900 kobo and a single
completed debit transaction `txnX`. -/
def dbAfterX : DB where
  customers := fun c => if c = "A" then some 900 else none
  transactions := [txnX]
  nextId := 1

/-- A fresh billable request context: price 10000 kobo, not yet charged. -/
def chargeReq0 : ChargeReq where
  hasCharged := false
  walletCtx := some { serviceCode := "name-search", priceKobo := 10000, charged := false }
  customerId := some "A"

/-! ## Theorems

First the supporting lemmas about the embedded persistence operations, then
one theorem (with witness where hypotheses are present) per claim. -/

theorem getCustomer_updateCustomer (db : DB) (c : String) (v : Int) (c' : String) :
    getCustomer (updateCustomer db c v) c' = if c' = c then some v else getCustomer db c' := rfl

theorem transactions_updateCustomer (db : DB) (c : String) (v : Int) :
    (updateCustomer db c v).transactions = db.transactions := rfl

theorem nextId_updateCustomer (db : DB) (c : String) (v : Int) :
    (updateCustomer db c v).nextId = db.nextId := rfl

theorem createTransaction_fst (db : DB) (cid : String) (ty : TxnType)
    (a bb ba : Int) (d r : String) (pm : Option PayMethod) (st : TxnStatus) :
    (createTransaction db cid ty a bb ba d r pm st).1 =
      { id := db.nextId, customerId := cid, type := ty, amount := a,
        balanceBefore := bb, balanceAfter := ba, description := d, reference := r,
        paymentMethod := pm, status := st, createdAt := db.nextId,
        completedAt := if st = TxnStatus.completed then some db.nextId else none } := rfl

theorem createTransaction_snd (db : DB) (cid : String) (ty : TxnType)
    (a bb ba : Int) (d r : String) (pm : Option PayMethod) (st : TxnStatus) :
    (createTransaction db cid ty a bb ba d r pm st).2 =
      { db with transactions := db.transactions ++ [(createTransaction db cid ty a bb ba d r pm st).1],
                nextId := db.nextId + 1 } := rfl

/-- A successful `debit` computed from its preconditions. -/
theorem debit_ok (db : DB) (cid : String) (b a : Int) (d r : String)
    (hc : getCustomer db cid = some b) (hba : a ≤ b)
    (hfresh : getTransactionByReference db r = none) :
    debit db cid a d r = .ok
      ((createTransaction db cid TxnType.debit a b (b - a) d r
          (some PayMethod.api_charge) TxnStatus.completed).1,
       updateCustomer (createTransaction db cid TxnType.debit a b (b - a) d r
          (some PayMethod.api_charge) TxnStatus.completed).2 cid (b - a)) := by
  simp only [debit, hc, hfresh, if_neg (not_lt.mpr hba)]

/-- A successful `credit` computed from its preconditions. -/
theorem credit_ok (db : DB) (cid : String) (b a : Int) (d r : String)
    (pm : Option PayMethod) (hc : getCustomer db cid = some b)
    (hfresh : getTransactionByReference db r = none) :
    credit db cid a d r pm = .ok
      ((createTransaction db cid TxnType.credit a b (b + a) d r
          (some (pm.getD PayMethod.card)) TxnStatus.completed).1,
       updateCustomer (createTransaction db cid TxnType.credit a b (b + a) d r
          (some (pm.getD PayMethod.card)) TxnStatus.completed).2 cid (b + a)) := by
  simp only [credit, hc, hfresh]

/-- Inversion of a successful `debit`. -/
theorem debit_ok_inv {db : DB} {cid : String} {a : Int} {d r : String}
    {t : Txn} {db1 : DB} (h : debit db cid a d r = .ok (t, db1)) :
    ∃ b, getCustomer db cid = some b ∧ a ≤ b ∧
      getTransactionByReference db r = none ∧
      t = (createTransaction db cid TxnType.debit a b (b - a) d r
            (some PayMethod.api_charge) TxnStatus.completed).1 ∧
      db1 = updateCustomer (createTransaction db cid TxnType.debit a b (b - a) d r
            (some PayMethod.api_charge) TxnStatus.completed).2 cid (b - a) := by
  unfold debit at h
  split at h
  · simp at h
  rename_i b hg
  split at h
  · simp at h
  rename_i hlt
  split at h
  · simp at h
  rename_i hf
  simp only [Except.ok.injEq, Prod.mk.injEq] at h
  exact ⟨b, hg, not_lt.mp hlt, hf, h.1.symm, h.2.symm⟩

/-- Inversion of a successful `credit`. -/
theorem credit_ok_inv {db : DB} {cid : String} {a : Int} {d r : String}
    {pm : Option PayMethod} {t : Txn} {db1 : DB}
    (h : credit db cid a d r pm = .ok (t, db1)) :
    ∃ b, getCustomer db cid = some b ∧
      getTransactionByReference db r = none ∧
      t = (createTransaction db cid TxnType.credit a b (b + a) d r
            (some (pm.getD PayMethod.card)) TxnStatus.completed).1 ∧
      db1 = updateCustomer (createTransaction db cid TxnType.credit a b (b + a) d r
            (some (pm.getD PayMethod.card)) TxnStatus.completed).2 cid (b + a) := by
  unfold credit at h
  split at h
  · simp at h
  rename_i b hg
  split at h
  · simp at h
  rename_i hf
  simp only [Except.ok.injEq, Prod.mk.injEq] at h
  exact ⟨b, hg, hf, h.1.symm, h.2.symm⟩

/-- A failing `debit` call is a no-op on the store. -/
theorem runOp_debit_error {db : DB} {cid : String} {a : Int} {d r : String}
    {e : WalletErr} (h : debit db cid a d r = .error e) :
    runOp db (.debitOp cid a d r) = db := by
  simp [runOp, h]

/-- A failing `credit` call is a no-op on the store. -/
theorem runOp_credit_error {db : DB} {cid : String} {a : Int} {d r : String}
    {pm : Option PayMethod} {e : WalletErr} (h : credit db cid a d r pm = .error e) :
    runOp db (.creditOp cid a d r pm) = db := by
  simp [runOp, h]

/-- After a record with reference `r` has been appended, the duplicate lookup
finds it. -/
theorem getTransactionByReference_append_self {db : DB} {r : String}
    (hfresh : getTransactionByReference db r = none) (t : Txn) (ht : t.reference = r)
    (l : List Txn) (hl : l = db.transactions ++ [t]) (db' : DB)
    (hdb : db'.transactions = l) :
    getTransactionByReference db' r = some t := by
  simp only [getTransactionByReference, hdb, hl, List.find?_append]
  rw [show db.transactions.find? (fun x => decide (x.reference = r)) = none from hfresh]
  simp [ht]

/-- C2: for an existing account, `debit` fails with `InsufficientBalance`
exactly when the requested amount exceeds the balance; the failure carries
the required amount, the current balance and their difference as shortfall,
and leaves the store without a new transaction record and with the balance
unchanged; debiting exactly the balance (fresh reference) succeeds leaving
balance 0, and debiting one more than the balance fails with shortfall 1. -/
theorem c2_debit_insufficient_balance (db : DB) (cid : String) (b : Int)
    (hc : getCustomer db cid = some b) (a : Int) (d r : String) :
    ((∃ req cur sh, debit db cid a d r = .error (.insufficientBalance req cur sh)) ↔ b < a) ∧
    (b < a →
      debit db cid a d r = .error (.insufficientBalance a b (a - b)) ∧
      runOp db (.debitOp cid a d r) = db) ∧
    (getTransactionByReference db r = none →
      ∃ t db1, debit db cid b d r = .ok (t, db1) ∧ getCustomer db1 cid = some 0) ∧
    debit db cid (b + 1) d r = .error (.insufficientBalance (b + 1) b 1) := by
  have herr : ∀ a' : Int, b < a' →
      debit db cid a' d r = .error (.insufficientBalance a' b (a' - b)) := by
    intro a' hlt
    simp only [debit, hc, if_pos hlt]
  refine ⟨⟨?_, ?_⟩, ?_, ?_, ?_⟩
  · rintro ⟨req, cur, sh, he⟩
    by_contra hge
    rw [not_lt] at hge
    cases hf : getTransactionByReference db r with
    | some t0 =>
      simp [debit, hc, if_neg (not_lt.mpr hge), hf] at he
    | none =>
      rw [debit_ok db cid b a d r hc hge hf] at he
      simp at he
  · intro hlt
    exact ⟨a, b, a - b, herr a hlt⟩
  · intro hlt
    refine ⟨herr a hlt, ?_⟩
    simp only [runOp, herr a hlt]
  · intro hf
    refine ⟨_, _, debit_ok db cid b b d r hc le_rfl hf, ?_⟩
    simp [getCustomer_updateCustomer]
  · have h1 := herr (b + 1) (by omega)
    have : b + 1 - b = (1 : Int) := by omega
    rwa [this] at h1

/-- C2 witness: instantiated at the one-customer store `dbA` with balance
1000 and requested amount 2000. -/
theorem c2_witness :
    ((∃ req cur sh, debit dbA "A" 2000 "d" "r" = .error (.insufficientBalance req cur sh)) ↔
      (1000 : Int) < 2000) ∧
    ((1000 : Int) < 2000 →
      debit dbA "A" 2000 "d" "r" = .error (.insufficientBalance 2000 1000 (2000 - 1000)) ∧
      runOp dbA (.debitOp "A" 2000 "d" "r") = dbA) ∧
    (getTransactionByReference dbA "r" = none →
      ∃ t db1, debit dbA "A" 1000 "d" "r" = .ok (t, db1) ∧ getCustomer db1 "A" = some 0) ∧
    debit dbA "A" (1000 + 1) "d" "r" = .error (.insufficientBalance (1000 + 1) 1000 1) :=
  c2_debit_insufficient_balance dbA "A" 1000 (by decide) 2000 "d" "r"

/-- C3 counterexample: with balance 100, debiting 100 twice under the same
reference `X` makes the second call fail with `InsufficientBalance`, not
`DuplicateTransaction`. -/
theorem c3_counterexample :
    secondDebitResult = .error (.insufficientBalance 100 0 100) ∧
    isDuplicateErr secondDebitResult = false :=
  ⟨rfl, rfl⟩

/-- C3 amended: debiting twice with the same reference applies the balance
change exactly once and the second call fails as a no-op — with
`DuplicateTransaction` when the remaining balance still covers the amount,
and with `InsufficientBalance` otherwise; for `credit` the duplicate guard
always yields `DuplicateTransaction`. -/
theorem c3_idempotence_amended (db : DB) (cid : String) (b a : Int)
    (d d2 R : String) (hc : getCustomer db cid = some b) (hba : a ≤ b)
    (hfresh : getTransactionByReference db R = none) :
    (∃ t db1, debit db cid a d R = .ok (t, db1) ∧
      getCustomer db1 cid = some (b - a) ∧
      db1.transactions = db.transactions ++ [t] ∧
      debit db1 cid a d2 R =
        (if b - a < a then .error (.insufficientBalance a (b - a) (a - (b - a)))
         else .error (.duplicateTransaction R)) ∧
      runOp db1 (.debitOp cid a d2 R) = db1) ∧
    (∀ pm pm2 d3 d4, ∃ t2 db2, credit db cid a d3 R pm = .ok (t2, db2) ∧
      getCustomer db2 cid = some (b + a) ∧
      credit db2 cid a d4 R pm2 = .error (.duplicateTransaction R) ∧
      runOp db2 (.creditOp cid a d4 R pm2) = db2) := by
  constructor
  · have hdup : getTransactionByReference
        (updateCustomer (createTransaction db cid TxnType.debit a b (b - a) d R
          (some PayMethod.api_charge) TxnStatus.completed).2 cid (b - a)) R =
        some (createTransaction db cid TxnType.debit a b (b - a) d R
          (some PayMethod.api_charge) TxnStatus.completed).1 :=
      getTransactionByReference_append_self hfresh _ rfl _ rfl _
        (by rw [transactions_updateCustomer, createTransaction_snd])
    have hbal : getCustomer
        (updateCustomer (createTransaction db cid TxnType.debit a b (b - a) d R
          (some PayMethod.api_charge) TxnStatus.completed).2 cid (b - a)) cid =
        some (b - a) := by
      simp [getCustomer_updateCustomer]
    have hsecond : debit (updateCustomer (createTransaction db cid TxnType.debit a b
          (b - a) d R (some PayMethod.api_charge) TxnStatus.completed).2 cid (b - a))
          cid a d2 R =
        (if b - a < a then .error (.insufficientBalance a (b - a) (a - (b - a)))
         else .error (.duplicateTransaction R)) := by
      by_cases hlt : b - a < a
      · simp only [debit, hbal, if_pos hlt]
      · simp only [debit, hbal, hdup, if_neg hlt]
    refine ⟨_, _, debit_ok db cid b a d R hc hba hfresh, hbal, ?_, hsecond, ?_⟩
    · rw [transactions_updateCustomer, createTransaction_snd]
    · by_cases hlt : b - a < a
      · exact runOp_debit_error (by rw [hsecond, if_pos hlt])
      · exact runOp_debit_error (by rw [hsecond, if_neg hlt])
  · intro pm pm2 d3 d4
    have hdup : getTransactionByReference
        (updateCustomer (createTransaction db cid TxnType.credit a b (b + a) d3 R
          (some (pm.getD PayMethod.card)) TxnStatus.completed).2 cid (b + a)) R =
        some (createTransaction db cid TxnType.credit a b (b + a) d3 R
          (some (pm.getD PayMethod.card)) TxnStatus.completed).1 :=
      getTransactionByReference_append_self hfresh _ rfl _ rfl _
        (by rw [transactions_updateCustomer, createTransaction_snd])
    have hsecond : credit (updateCustomer (createTransaction db cid TxnType.credit a b
          (b + a) d3 R (some (pm.getD PayMethod.card)) TxnStatus.completed).2 cid (b + a))
          cid a d4 R pm2 = .error (.duplicateTransaction R) := by
      simp [credit, getCustomer_updateCustomer, hdup]
    refine ⟨_, _, credit_ok db cid b a d3 R pm hc hfresh, ?_, hsecond,
      runOp_credit_error hsecond⟩
    simp [getCustomer_updateCustomer]

/-- C3 amended witness: instantiated at `dbA` (balance 1000), amount 400,
reference `X`. -/
theorem c3_witness :
    (∃ t db1, debit dbA "A" 400 "d" "X" = .ok (t, db1) ∧
      getCustomer db1 "A" = some (1000 - 400) ∧
      db1.transactions = dbA.transactions ++ [t] ∧
      debit db1 "A" 400 "d2" "X" =
        (if (1000 : Int) - 400 < 400 then
          .error (.insufficientBalance 400 (1000 - 400) (400 - (1000 - 400)))
         else .error (.duplicateTransaction "X")) ∧
      runOp db1 (.debitOp "A" 400 "d2" "X") = db1) ∧
    (∀ pm pm2 d3 d4, ∃ t2 db2, credit dbA "A" 400 d3 "X" pm = .ok (t2, db2) ∧
      getCustomer db2 "A" = some (1000 + 400) ∧
      credit db2 "A" 400 d4 "X" pm2 = .error (.duplicateTransaction "X") ∧
      runOp db2 (.creditOp "A" 400 d4 "X" pm2) = db2) :=
  c3_idempotence_amended dbA "A" 1000 400 "d" "d2" "X" (by decide) (by decide) (by decide)

/-- C10: neither `debit` nor `credit` validates that the amount is positive:
`credit` succeeds for any amount against an existing account (no
affordability check), decreasing the balance when the amount is negative;
`debit` succeeds whenever the balance covers the amount — in particular for
every negative or zero amount — increasing the balance when the amount is
negative; both record a `completed` transaction with the signed arithmetic
`balanceAfter`. -/
theorem c10_no_amount_validation (db : DB) (cid : String) (b a : Int)
    (d R : String) (hc : getCustomer db cid = some b)
    (hfresh : getTransactionByReference db R = none) :
    (∀ pm, ∃ t db1, credit db cid a d R pm = .ok (t, db1) ∧
      getCustomer db1 cid = some (b + a) ∧ t.status = TxnStatus.completed ∧
      t.amount = a ∧ t.balanceBefore = b ∧ t.balanceAfter = b + a ∧
      db1.transactions = db.transactions ++ [t] ∧ (a < 0 → b + a < b)) ∧
    (a ≤ b → ∃ t db1, debit db cid a d R = .ok (t, db1) ∧
      getCustomer db1 cid = some (b - a) ∧ t.status = TxnStatus.completed ∧
      t.amount = a ∧ t.balanceBefore = b ∧ t.balanceAfter = b - a ∧
      db1.transactions = db.transactions ++ [t] ∧ (a < 0 → b < b - a)) := by
  constructor
  · intro pm
    refine ⟨_, _, credit_ok db cid b a d R pm hc hfresh, ?_, rfl, rfl, rfl, rfl, ?_, ?_⟩
    · simp [getCustomer_updateCustomer]
    · rw [transactions_updateCustomer, createTransaction_snd]
    · intro ha; omega
  · intro hba
    refine ⟨_, _, debit_ok db cid b a d R hc hba hfresh, ?_, rfl, rfl, rfl, rfl, ?_, ?_⟩
    · simp [getCustomer_updateCustomer]
    · rw [transactions_updateCustomer, createTransaction_snd]
    · intro ha; omega

/-- C10 witness: instantiated at `dbA` with the negative amount -50. -/
theorem c10_witness :
    (∀ pm, ∃ t db1, credit dbA "A" (-50) "d" "R" pm = .ok (t, db1) ∧
      getCustomer db1 "A" = some (1000 + -50) ∧ t.status = TxnStatus.completed ∧
      t.amount = -50 ∧ t.balanceBefore = 1000 ∧ t.balanceAfter = 1000 + -50 ∧
      db1.transactions = dbA.transactions ++ [t] ∧ ((-50 : Int) < 0 → (1000 : Int) + -50 < 1000)) ∧
    ((-50 : Int) ≤ 1000 → ∃ t db1, debit dbA "A" (-50) "d" "R" = .ok (t, db1) ∧
      getCustomer db1 "A" = some (1000 - -50) ∧ t.status = TxnStatus.completed ∧
      t.amount = -50 ∧ t.balanceBefore = 1000 ∧ t.balanceAfter = 1000 - -50 ∧
      db1.transactions = dbA.transactions ++ [t] ∧ ((-50 : Int) < 0 → (1000 : Int) < 1000 - -50)) :=
  c10_no_amount_validation dbA "A" 1000 (-50) "d" "R" (by decide) (by decide)

/-- Mapping an id-preserving per-record update over the collection commutes
with looking a record up by id. -/
theorem find?_map_update_id {l : List Txn} {tid : Nat} {T : Txn} (g : Txn → Txn)
    (hg : ∀ t, (g t).id = t.id)
    (h : l.find? (fun t => t.id = tid) = some T) :
    (l.map (fun t => if t.id = tid then g t else t)).find? (fun t => t.id = tid) =
      some (g T) := by
  induction l with
  | nil => simp at h
  | cons u us ih =>
    simp only [List.map_cons]
    by_cases hu : u.id = tid
    · rw [List.find?_cons_of_pos _ (by simp [hu])] at h
      rw [if_pos hu, List.find?_cons_of_pos _ (by simp [hg, hu])]
      injection h with h
      rw [h]
    · rw [List.find?_cons_of_neg _ (by simp [hu])] at h
      rw [if_neg hu, List.find?_cons_of_neg _ (by simp [hu])]
      exact ih h

/-- Updating a transaction's status does not touch the customers
collection. -/
theorem getCustomer_updateTransactionStatus (db : DB) (tid : Nat)
    (st : TxnStatus) (ca : Option Nat) (c : String) :
    getCustomer (updateTransactionStatus db tid st ca) c = getCustomer db c := rfl

/-- Looking up the updated transaction after `updateWalletTransactionStatus`
returns it with the new status and `completedAt`. -/
theorem getTransaction_update_self {db : DB} {tid : Nat} {T : Txn}
    (hT : getTransaction db tid = some T) (st : TxnStatus) (ca : Option Nat) :
    getTransaction (updateTransactionStatus db tid st ca) tid =
      some { T with status := st
                    completedAt := match ca with
                      | some dd => some dd
                      | none => if st = TxnStatus.completed then some db.nextId else none } := by
  simp only [getTransaction, updateTransactionStatus] at hT ⊢
  exact find?_map_update_id _ (fun t => rfl) hT

/-- A successful `reserveBalance` computed from its preconditions. -/
theorem reserveBalance_ok (db : DB) (cid : String) (b a : Int) (d genRef : String)
    (hc : getCustomer db cid = some b) (hba : a ≤ b) :
    reserveBalance db cid a d genRef =
      .ok (createTransaction db cid TxnType.debit a b (b - a) d genRef
        (some PayMethod.api_charge) TxnStatus.pending) := by
  simp only [reserveBalance, hc, if_neg (not_lt.mpr hba)]

/-- Creating a transaction record does not touch the customers collection. -/
theorem getCustomer_createTransaction (db : DB) (cid : String) (ty : TxnType)
    (a bb ba : Int) (d r : String) (pm : Option PayMethod) (st : TxnStatus) (c : String) :
    getCustomer (createTransaction db cid ty a bb ba d r pm st).2 c = getCustomer db c := rfl

/-- C5: refunding a completed debit credits the account by exactly the
debited amount and marks the original transaction `reversed`; a second
refund fails with `DuplicateRefund`; refunding a non-debit fails with
`InvalidTransactionType`; refunding a missing id fails with
`TransactionNotFound`. -/
theorem c5_refund_round_trip (db : DB) (T : Txn) (b : Int) (reason genRef : String)
    (hT : getTransaction db T.id = some T)
    (hty : T.type = TxnType.debit) (hst : T.status = TxnStatus.completed)
    (hc : getCustomer db T.customerId = some b)
    (hfresh : getTransactionByReference db genRef = none) :
    (∃ t db1, refund db T.id reason genRef = .ok (t, db1) ∧
      t.type = TxnType.credit ∧ t.amount = T.amount ∧
      getCustomer db1 T.customerId = some (b + T.amount) ∧
      getTransaction db1 T.id =
        some { T with status := TxnStatus.reversed, completedAt := none } ∧
      (∀ reason2 genRef2, refund db1 T.id reason2 genRef2 = .error .duplicateRefund)) ∧
    (∀ tid, getTransaction db tid = none →
      refund db tid reason genRef = .error .transactionNotFound) ∧
    (∀ tid T2, getTransaction db tid = some T2 → T2.type ≠ TxnType.debit →
      refund db tid reason genRef = .error .invalidTransactionType) := by
  refine ⟨?_, ?_, ?_⟩
  · have hcr := credit_ok db T.customerId b T.amount ("Refund: " ++ reason) genRef
      (some PayMethod.refundPay) hc hfresh
    have hrefund : refund db T.id reason genRef =
        .ok ((createTransaction db T.customerId TxnType.credit T.amount b (b + T.amount)
              ("Refund: " ++ reason) genRef
              (some ((some PayMethod.refundPay).getD PayMethod.card)) TxnStatus.completed).1,
            updateTransactionStatus
              (updateCustomer (createTransaction db T.customerId TxnType.credit T.amount b
                (b + T.amount) ("Refund: " ++ reason) genRef
                (some ((some PayMethod.refundPay).getD PayMethod.card)) TxnStatus.completed).2
                T.customerId (b + T.amount))
              T.id TxnStatus.reversed none) := by
      simp only [refund, hT, hty, hcr]
      simp [hst]
    have hfound : getTransaction
        (updateCustomer (createTransaction db T.customerId TxnType.credit T.amount b
          (b + T.amount) ("Refund: " ++ reason) genRef
          (some ((some PayMethod.refundPay).getD PayMethod.card)) TxnStatus.completed).2
          T.customerId (b + T.amount)) T.id = some T := by
      simp only [getTransaction, transactions_updateCustomer, createTransaction_snd,
        List.find?_append]
      rw [show db.transactions.find? (fun t => decide (t.id = T.id)) = some T from hT]
      rfl
    have hupd := getTransaction_update_self hfound TxnStatus.reversed none
    have hrev : getTransaction (updateTransactionStatus
        (updateCustomer (createTransaction db T.customerId TxnType.credit T.amount b
          (b + T.amount) ("Refund: " ++ reason) genRef
          (some ((some PayMethod.refundPay).getD PayMethod.card)) TxnStatus.completed).2
          T.customerId (b + T.amount)) T.id TxnStatus.reversed none) T.id =
        some { T with status := TxnStatus.reversed, completedAt := none } := by
      rw [hupd]
      simp
    refine ⟨_, _, hrefund, rfl, rfl, ?_, hrev, ?_⟩
    · simp [getCustomer_updateTransactionStatus, getCustomer_updateCustomer]
    · intro reason2 genRef2
      simp only [refund, hrev, hty]
      simp
  · intro tid h
    simp only [refund, h]
  · intro tid T2 h h2
    simp only [refund, h, if_pos h2]

/-- C5 witness: instantiated at `dbAfterX`, whose only record is the
completed debit `txnX`. -/
theorem c5_witness :
    (∃ t db1, refund dbAfterX txnX.id "bad data" "RF1" = .ok (t, db1) ∧
      t.type = TxnType.credit ∧ t.amount = txnX.amount ∧
      getCustomer db1 txnX.customerId = some (900 + txnX.amount) ∧
      getTransaction db1 txnX.id =
        some { txnX with status := TxnStatus.reversed, completedAt := none } ∧
      (∀ reason2 genRef2, refund db1 txnX.id reason2 genRef2 = .error .duplicateRefund)) ∧
    (∀ tid, getTransaction dbAfterX tid = none →
      refund dbAfterX tid "bad data" "RF1" = .error .transactionNotFound) ∧
    (∀ tid T2, getTransaction dbAfterX tid = some T2 → T2.type ≠ TxnType.debit →
      refund dbAfterX tid "bad data" "RF1" = .error .invalidTransactionType) :=
  c5_refund_round_trip dbAfterX txnX 900 "bad data" "RF1"
    (by decide) (by decide) (by decide) (by decide) (by decide)

/-- The freshly reserved transaction is found by id in the store returned by
`reserveBalance`. -/
theorem getTransaction_reserve_found {db : DB}
    (hid : ∀ t ∈ db.transactions, t.id ≠ db.nextId) (cid : String) (ty : TxnType)
    (a bb ba : Int) (d r : String) (pm : Option PayMethod) (st : TxnStatus) :
    getTransaction (createTransaction db cid ty a bb ba d r pm st).2 db.nextId =
      some (createTransaction db cid ty a bb ba d r pm st).1 := by
  simp only [getTransaction, createTransaction_snd, List.find?_append]
  rw [List.find?_eq_none.mpr (fun x hx => by simpa using hid x hx)]
  simp [createTransaction_fst]

/-- C6: `reserveBalance` records a `pending` transaction carrying the
precomputed post-debit balance without changing the stored balance;
cancelling leaves the balance unchanged and marks the reservation `failed`;
completing moves the stored balance by exactly the reserved amount and marks
it `completed`. -/
theorem c6_reservation_round_trip (db : DB) (cid d genRef : String) (b a : Int)
    (hc : getCustomer db cid = some b) (hba : a ≤ b)
    (hid : ∀ t ∈ db.transactions, t.id ≠ db.nextId) :
    ∃ t db1, reserveBalance db cid a d genRef = .ok (t, db1) ∧
      t.status = TxnStatus.pending ∧ t.balanceBefore = b ∧ t.balanceAfter = b - a ∧
      getCustomer db1 cid = some b ∧
      db1.transactions = db.transactions ++ [t] ∧
      (∃ db2, cancelReservation db1 t.id = .ok db2 ∧
        getCustomer db2 cid = some b ∧
        getTransaction db2 t.id =
          some { t with status := TxnStatus.failed, completedAt := none }) ∧
      (∃ t3 db3, completeReservation db1 t.id = .ok (t3, db3) ∧
        getCustomer db3 cid = some (b - a) ∧ t3.status = TxnStatus.completed ∧
        getTransaction db3 t.id =
          some { t with status := TxnStatus.completed, completedAt := some db1.nextId }) := by
  have hres := reserveBalance_ok db cid b a d genRef hc hba
  have hfound := getTransaction_reserve_found hid cid TxnType.debit a b (b - a) d genRef
    (some PayMethod.api_charge) TxnStatus.pending
  refine ⟨_, _, hres, rfl, rfl, rfl, ?_, ?_, ?_, ?_⟩
  · exact hc
  · rfl
  · have hcancel : cancelReservation
        (createTransaction db cid TxnType.debit a b (b - a) d genRef
          (some PayMethod.api_charge) TxnStatus.pending).2 db.nextId =
        .ok (updateTransactionStatus
          (createTransaction db cid TxnType.debit a b (b - a) d genRef
            (some PayMethod.api_charge) TxnStatus.pending).2 db.nextId
          TxnStatus.failed none) := by
      simp only [cancelReservation, hfound]
      simp [createTransaction_fst]
    refine ⟨_, hcancel, hc, ?_⟩
    rw [getTransaction_update_self hfound TxnStatus.failed none]
    simp [createTransaction_fst]
  · have hcomplete : completeReservation
        (createTransaction db cid TxnType.debit a b (b - a) d genRef
          (some PayMethod.api_charge) TxnStatus.pending).2 db.nextId =
        .ok ({ (createTransaction db cid TxnType.debit a b (b - a) d genRef
                 (some PayMethod.api_charge) TxnStatus.pending).1 with
                 status := TxnStatus.completed,
                 completedAt := some (createTransaction db cid TxnType.debit a b (b - a) d
                   genRef (some PayMethod.api_charge) TxnStatus.pending).2.nextId },
              updateTransactionStatus
                (updateCustomer (createTransaction db cid TxnType.debit a b (b - a) d genRef
                  (some PayMethod.api_charge) TxnStatus.pending).2 cid (b - a))
                db.nextId TxnStatus.completed
                (some (createTransaction db cid TxnType.debit a b (b - a) d genRef
                  (some PayMethod.api_charge) TxnStatus.pending).2.nextId)) := by
      simp only [completeReservation, hfound]
      simp [createTransaction_fst]
    have hfound2 : getTransaction
        (updateCustomer (createTransaction db cid TxnType.debit a b (b - a) d genRef
          (some PayMethod.api_charge) TxnStatus.pending).2 cid (b - a)) db.nextId =
        some (createTransaction db cid TxnType.debit a b (b - a) d genRef
          (some PayMethod.api_charge) TxnStatus.pending).1 := hfound
    refine ⟨_, _, hcomplete, ?_, rfl, ?_⟩
    · simp [getCustomer_updateTransactionStatus, getCustomer_updateCustomer]
    · rw [getTransaction_update_self hfound2 TxnStatus.completed _]
      rfl

/-- C6 witness: instantiated at `dbA` with a reservation of 500 kobo. -/
theorem c6_witness :
    ∃ t db1, reserveBalance dbA "A" 500 "hold" "RSV" = .ok (t, db1) ∧
      t.status = TxnStatus.pending ∧ t.balanceBefore = 1000 ∧ t.balanceAfter = 1000 - 500 ∧
      getCustomer db1 "A" = some 1000 ∧
      db1.transactions = dbA.transactions ++ [t] ∧
      (∃ db2, cancelReservation db1 t.id = .ok db2 ∧
        getCustomer db2 "A" = some 1000 ∧
        getTransaction db2 t.id =
          some { t with status := TxnStatus.failed, completedAt := none }) ∧
      (∃ t3 db3, completeReservation db1 t.id = .ok (t3, db3) ∧
        getCustomer db3 "A" = some (1000 - 500) ∧ t3.status = TxnStatus.completed ∧
        getTransaction db3 t.id =
          some { t with status := TxnStatus.completed, completedAt := some db1.nextId }) :=
  c6_reservation_round_trip dbA "A" "hold" "RSV" 1000 500
    (by decide) (by decide) (by decide)

/-- C9: `completeReservation` writes the balance snapshot precomputed at
`reserveBalance` time straight into the stored balance without re-reading it:
a debit applied between reservation and completion is overwritten, so the
final stored balance is the reservation-time snapshot `b - a`, not the
current balance minus the reserved amount `b - c - a`. -/
theorem c9_complete_overwrites_interleaved (db : DB) (cid d d2 genRef ref2 : String)
    (b a c : Int) (hc : getCustomer db cid = some b) (hba : a ≤ b) (hcb : c ≤ b)
    (hid : ∀ t ∈ db.transactions, t.id ≠ db.nextId)
    (hfresh2 : getTransactionByReference db ref2 = none) (hne : ref2 ≠ genRef) :
    ∃ t db1, reserveBalance db cid a d genRef = .ok (t, db1) ∧
      ∃ t2 db2, debit db1 cid c d2 ref2 = .ok (t2, db2) ∧
        getCustomer db2 cid = some (b - c) ∧
        ∃ t3 db3, completeReservation db2 t.id = .ok (t3, db3) ∧
          getCustomer db3 cid = some (b - a) ∧
          (c ≠ 0 → getCustomer db3 cid ≠ some (b - c - a)) := by
  have hres := reserveBalance_ok db cid b a d genRef hc hba
  have hfresh1 : getTransactionByReference
      (createTransaction db cid TxnType.debit a b (b - a) d genRef
        (some PayMethod.api_charge) TxnStatus.pending).2 ref2 = none := by
    simp only [getTransactionByReference, createTransaction_snd, List.find?_append]
    rw [show db.transactions.find? (fun t => decide (t.reference = ref2)) = none from hfresh2]
    simp only [createTransaction_fst, List.find?_cons, List.find?_nil]
    have h2 : ¬ genRef = ref2 := fun h => hne h.symm
    simp [h2]
  have hdeb := debit_ok
    (createTransaction db cid TxnType.debit a b (b - a) d genRef
      (some PayMethod.api_charge) TxnStatus.pending).2 cid b c d2 ref2 hc hcb hfresh1
  have hfound : getTransaction
      (updateCustomer (createTransaction
        (createTransaction db cid TxnType.debit a b (b - a) d genRef
          (some PayMethod.api_charge) TxnStatus.pending).2 cid TxnType.debit c b (b - c)
        d2 ref2 (some PayMethod.api_charge) TxnStatus.completed).2 cid (b - c)) db.nextId =
      some (createTransaction db cid TxnType.debit a b (b - a) d genRef
        (some PayMethod.api_charge) TxnStatus.pending).1 := by
    simp only [getTransaction, transactions_updateCustomer, createTransaction_snd,
      List.find?_append]
    rw [List.find?_eq_none.mpr (fun x hx => by simpa using hid x hx)]
    simp [createTransaction_fst]
  have hcomp : completeReservation
      (updateCustomer (createTransaction
        (createTransaction db cid TxnType.debit a b (b - a) d genRef
          (some PayMethod.api_charge) TxnStatus.pending).2 cid TxnType.debit c b (b - c)
        d2 ref2 (some PayMethod.api_charge) TxnStatus.completed).2 cid (b - c)) db.nextId =
      .ok ({ (createTransaction db cid TxnType.debit a b (b - a) d genRef
               (some PayMethod.api_charge) TxnStatus.pending).1 with
               status := TxnStatus.completed,
               completedAt := some (updateCustomer (createTransaction
                 (createTransaction db cid TxnType.debit a b (b - a) d genRef
                   (some PayMethod.api_charge) TxnStatus.pending).2 cid TxnType.debit c b
                 (b - c) d2 ref2 (some PayMethod.api_charge) TxnStatus.completed).2
                 cid (b - c)).nextId },
           updateTransactionStatus
             (updateCustomer (updateCustomer (createTransaction
               (createTransaction db cid TxnType.debit a b (b - a) d genRef
                 (some PayMethod.api_charge) TxnStatus.pending).2 cid TxnType.debit c b
               (b - c) d2 ref2 (some PayMethod.api_charge) TxnStatus.completed).2
               cid (b - c)) cid (b - a))
             db.nextId TxnStatus.completed
             (some (updateCustomer (createTransaction
               (createTransaction db cid TxnType.debit a b (b - a) d genRef
                 (some PayMethod.api_charge) TxnStatus.pending).2 cid TxnType.debit c b
               (b - c) d2 ref2 (some PayMethod.api_charge) TxnStatus.completed).2
               cid (b - c)).nextId)) := by
    simp only [completeReservation, hfound]
    simp [createTransaction_fst]
  refine ⟨_, _, hres, _, _, hdeb, ?_, _, _, hcomp, ?_, ?_⟩
  · simp [getCustomer_updateCustomer]
  · simp [getCustomer_updateTransactionStatus, getCustomer_updateCustomer]
  · intro hc0
    simp only [getCustomer_updateTransactionStatus, getCustomer_updateCustomer, if_pos rfl]
    intro hcontra
    have h3 := Option.some.inj hcontra
    omega

/-- C9 witness: balance 1000, reservation of 300, interleaved debit of 200 —
completion stores 700, not 500. -/
theorem c9_witness :
    ∃ t db1, reserveBalance dbA "A" 300 "hold" "RSV" = .ok (t, db1) ∧
      ∃ t2 db2, debit db1 "A" 200 "charge" "REF2" = .ok (t2, db2) ∧
        getCustomer db2 "A" = some (1000 - 200) ∧
        ∃ t3 db3, completeReservation db2 t.id = .ok (t3, db3) ∧
          getCustomer db3 "A" = some (1000 - 300) ∧
          ((200 : Int) ≠ 0 → getCustomer db3 "A" ≠ some (1000 - 200 - 300)) :=
  c9_complete_overwrites_interleaved dbA "A" "hold" "charge" "RSV" "REF2" 1000 300 200
    (by decide) (by decide) (by decide) (by decide) (by decide) (by decide)

/-- A `processCharge` invocation with the closure flag already set is a
no-op. -/
theorem processCharge_hasCharged {req : ChargeReq} (h : req.hasCharged = true)
    (db : DB) (s : Int) (g : String) : processCharge req db s g = (true, req, db) := by
  simp [processCharge, h]

/-- A `processCharge` invocation at a non-2xx status never charges. -/
theorem processCharge_non2xx (req : ChargeReq) (db : DB) (s : Int) (g : String)
    (hs : s < 200 ∨ 300 ≤ s) : processCharge req db s g = (true, req, db) := by
  by_cases hhc : req.hasCharged
  · simp [processCharge, hhc]
  · rcases hctx : req.walletCtx with _ | w
    · simp [processCharge, hhc, hctx]
    · by_cases hch : w.charged
      · simp [processCharge, hhc, hctx, hch]
      · by_cases hp : w.priceKobo = 0
        · simp [processCharge, hhc, hctx, hch, hp]
        · rcases hcu : req.customerId with _ | cidv
          · simp [processCharge, hhc, hctx, hch, hp, hcu]
          · simp [processCharge, hhc, hctx, hch, hp, hcu, hs]

/-- Any single `processCharge` invocation either leaves the request state and
store untouched, or sets the closure flag and appends at most one
transaction. -/
theorem processCharge_step (req : ChargeReq) (db : DB) (s : Int) (g : String) :
    ((processCharge req db s g).2.1 = req ∧ (processCharge req db s g).2.2 = db) ∨
    ((processCharge req db s g).2.1.hasCharged = true ∧
      ((processCharge req db s g).2.2 = db ∨
       ∃ t, (processCharge req db s g).2.2.transactions = db.transactions ++ [t])) := by
  by_cases hhc : req.hasCharged
  · left; simp [processCharge, hhc]
  · rcases hctx : req.walletCtx with _ | w
    · left; simp [processCharge, hhc, hctx]
    · by_cases hch : w.charged
      · left; simp [processCharge, hhc, hctx, hch]
      · by_cases hp : w.priceKobo = 0
        · left; simp [processCharge, hhc, hctx, hch, hp]
        · rcases hcu : req.customerId with _ | cidv
          · left; simp [processCharge, hhc, hctx, hch, hp, hcu]
          · by_cases hs : s < 200 ∨ 300 ≤ s
            · left; simp [processCharge, hhc, hctx, hch, hp, hcu, hs]
            · right
              cases hdeb : debit db cidv w.priceKobo ("API: " ++ w.serviceCode) g with
              | error e =>
                simp [processCharge, hhc, hctx, hch, hp, hcu, hs, hdeb]
              | ok p =>
                obtain ⟨b, _, _, _, ht1, hdb1⟩ := debit_ok_inv
                  (show debit db cidv w.priceKobo ("API: " ++ w.serviceCode) g =
                    .ok (p.1, p.2) by rw [hdeb])
                refine ⟨?_, Or.inr ⟨p.1, ?_⟩⟩
                · simp [processCharge, hhc, hctx, hch, hp, hcu, hs, hdeb]
                · have hpc : (processCharge req db s g).2.2 = p.2 := by
                    simp [processCharge, hhc, hctx, hch, hp, hcu, hs, hdeb]
                  rw [hpc, hdb1, transactions_updateCustomer, createTransaction_snd, ht1]

/-- Across any sequence of `processCharge` invocations for one request, at
most one transaction is appended in total (none when the flag is already
set). -/
theorem processChargeRuns_le (runs : List (Int × String)) (req : ChargeReq) (db : DB) :
    (processChargeRuns req db runs).2.transactions.length ≤
      db.transactions.length + (if req.hasCharged = true then 0 else 1) := by
  induction runs generalizing req db with
  | nil =>
    simp only [processChargeRuns]
    split <;> omega
  | cons p rest ih =>
    simp only [processChargeRuns]
    by_cases hb : req.hasCharged = true
    · rw [processCharge_hasCharged hb db p.1 p.2]
      simpa [hb] using ih req db
    · simp only [if_neg hb]
      rcases processCharge_step req db p.1 p.2 with ⟨h1, h2⟩ | ⟨h1, hor⟩
      · rw [h1, h2]
        have h3 := ih req db
        rw [if_neg hb] at h3
        exact h3
      · have h3 := ih (processCharge req db p.1 p.2).2.1 (processCharge req db p.1 p.2).2.2
        rw [h1] at h3
        simp only [if_pos] at h3
        have h4 : (processCharge req db p.1 p.2).2.2.transactions.length ≤
            db.transactions.length + 1 := by
          rcases hor with h2 | ⟨t, h2⟩
          · rw [h2]; omega
          · rw [h2]; simp
        omega

/-- C7: the post-check charging stage never charges on a non-2xx downstream
response (request state, balance and transaction list all unchanged), and
never appends more than one charge transaction for the same request no matter
how many times it is invoked, guarded by the per-request `hasCharged` flag. -/
theorem c7_post_check_guards (req : ChargeReq) (db : DB) :
    (∀ s g, s < 200 ∨ 300 ≤ s → processCharge req db s g = (true, req, db)) ∧
    (req.hasCharged = false → ∀ runs,
      (processChargeRuns req db runs).2.transactions.length ≤
        db.transactions.length + 1) := by
  refine ⟨fun s g hs => processCharge_non2xx req db s g hs, fun hhc runs => ?_⟩
  have h := processChargeRuns_le runs req db
  rw [hhc] at h
  simpa using h

/-- C7 witness: instantiated at the fresh billable request `chargeReq0` over
`dbA`, a 500 response and two 200 invocations. -/
theorem c7_witness :
    processCharge chargeReq0 dbA 500 "G" = (true, chargeReq0, dbA) ∧
    (processChargeRuns chargeReq0 dbA [(200, "G"), (200, "G2")]).2.transactions.length ≤
      dbA.transactions.length + 1 :=
  ⟨(c7_post_check_guards chargeReq0 dbA).1 500 "G" (by decide),
   (c7_post_check_guards chargeReq0 dbA).2 (by decide) [(200, "G"), (200, "G2")]⟩

/-- C4: on the charging path, the overridden `res.json` sends the response
strictly before the awaited debit's database operations and the completion of
`processCharge`: the un-awaited async IIFE suspends at its first database
`await` and `originalJson(body)` runs immediately, so the charge is *not*
awaited before the response is released. -/
theorem c4_response_sent_before_charge :
    resJsonOverride processChargeSteps =
      [Ev.responseSent, Ev.dbGetCustomer, Ev.dbGetTxnByReference,
       Ev.dbCreateTransaction, Ev.dbUpdateBalance, Ev.chargeCompleted] ∧
    List.indexOf Ev.responseSent (resJsonOverride processChargeSteps) <
      List.indexOf Ev.chargeCompleted (resJsonOverride processChargeSteps) := by
  constructor <;> decide

/-- The trailing fallback returns a segment whenever the path has any
segment at all. -/
theorem lastSegmentFallback_isSome {l : List String} (h : l ≠ []) :
    ∃ s, lastSegmentFallback l = some s := by
  unfold lastSegmentFallback
  split
  · show ∃ s, (if segmentHasDigit (l.getD (l.length - 1) "") = true then
        some (l.getD (l.length - 2) "") else some (l.getD (l.length - 1) "")) = some s
    split <;> exact ⟨_, rfl⟩
  · cases hg : l.getLast? with
    | none => exact absurd (List.getLast?_eq_none_iff.mp hg) h
    | some s => exact ⟨s, rfl⟩

/-- C8: `getServiceCodeFromEndpoint` resolves, in order: (1) the first path
segment matching the known-code list; (2) failing that, the
`business`-convention segment (`business/identity/{code}` or
`business/{code}`); (3) failing that, the trailing heuristic — with at least
two segments, the second-to-last segment when the last contains a digit, else
the last; and it returns `null` exactly when the path has no segments. -/
theorem c8_resolve_service_code (endpoint : String) :
    (∀ c, (pathSegments endpoint).find? (fun s => knownServiceCodes.contains s) = some c →
      getServiceCodeFromEndpoint endpoint = some c) ∧
    ((pathSegments endpoint).find? (fun s => knownServiceCodes.contains s) = none →
      ∀ bi, (pathSegments endpoint).findIdx? (fun s => s = "business") = some bi →
        bi + 1 < (pathSegments endpoint).length →
        getServiceCodeFromEndpoint endpoint =
          (if (pathSegments endpoint).getD (bi + 1) "" = "identity" ∧
              bi + 2 < (pathSegments endpoint).length then
            some ((pathSegments endpoint).getD (bi + 2) "")
          else some ((pathSegments endpoint).getD (bi + 1) ""))) ∧
    ((pathSegments endpoint).find? (fun s => knownServiceCodes.contains s) = none →
      (pathSegments endpoint).findIdx? (fun s => s = "business") = none →
      getServiceCodeFromEndpoint endpoint = lastSegmentFallback (pathSegments endpoint)) ∧
    (2 ≤ (pathSegments endpoint).length →
      lastSegmentFallback (pathSegments endpoint) =
        (if segmentHasDigit ((pathSegments endpoint).getD
            ((pathSegments endpoint).length - 1) "") then
          some ((pathSegments endpoint).getD ((pathSegments endpoint).length - 2) "")
        else some ((pathSegments endpoint).getD ((pathSegments endpoint).length - 1) ""))) ∧
    (getServiceCodeFromEndpoint endpoint = none ↔ pathSegments endpoint = []) := by
  refine ⟨?_, ?_, ?_, ?_, ?_, ?_⟩
  · intro c h
    simp only [getServiceCodeFromEndpoint]
    rw [h]
  · intro h bi hbi hlen
    simp only [getServiceCodeFromEndpoint]
    rw [h, hbi]
    dsimp only
    rw [if_pos hlen]
  · intro h h2
    simp only [getServiceCodeFromEndpoint]
    rw [h, h2]
  · intro hlen
    unfold lastSegmentFallback
    rw [if_pos hlen]
  · intro hres
    by_contra hne
    simp only [getServiceCodeFromEndpoint] at hres
    rcases hf : (pathSegments endpoint).find? (fun s => knownServiceCodes.contains s) with
      _ | c
    case some =>
      rw [hf] at hres
      simp at hres
    rw [hf] at hres
    dsimp only at hres
    rcases hbi : (pathSegments endpoint).findIdx? (fun s => s = "business") with _ | bi
    case some =>
      rw [hbi] at hres
      dsimp only at hres
      by_cases hlen : bi + 1 < (pathSegments endpoint).length
      · rw [if_pos hlen] at hres
        split at hres <;> simp at hres
      · obtain ⟨s, hs⟩ := lastSegmentFallback_isSome hne
        rw [if_neg hlen, hs] at hres
        simp at hres
    case none =>
      obtain ⟨s, hs⟩ := lastSegmentFallback_isSome hne
      rw [hbi] at hres
      dsimp only at hres
      rw [hs] at hres
      simp at hres
  · intro h
    simp [getServiceCodeFromEndpoint, lastSegmentFallback, h]

/-- C8 witness: a known-code path resolves to its code, and the empty path
resolves to `null`. -/
theorem c8_witness :
    (pathSegments "/api/v1/business/name-search").find?
      (fun s => knownServiceCodes.contains s) = some "name-search" ∧
    getServiceCodeFromEndpoint "/api/v1/business/name-search" = some "name-search" ∧
    (getServiceCodeFromEndpoint "" = none ↔ pathSegments "" = []) :=
  ⟨by decide,
   (c8_resolve_service_code "/api/v1/business/name-search").1 "name-search" (by decide),
   (c8_resolve_service_code "").2.2.2.2⟩

theorem chainOk_append (b : Int) (l : List Txn) (t : Txn) :
    chainOk b (l ++ [t]) =
      (chainOk b l).bind
        (fun b1 => if t.balanceBefore = b1 then some t.balanceAfter else none) := by
  induction l generalizing b with
  | nil => simp [chainOk]
  | cons u us ih =>
    simp only [List.cons_append, chainOk]
    split
    · exact ih _
    · rfl

theorem chainOk_chain' {b b1 : Int} {l : List Txn} (h : chainOk b l = some b1) :
    List.Chain' (fun x y : Txn => x.balanceAfter = y.balanceBefore) l := by
  induction l generalizing b with
  | nil => exact List.chain'_nil
  | cons t ts ih =>
    rw [chainOk] at h
    split at h
    · refine List.chain'_cons'.mpr ⟨?_, ih h⟩
      intro u hu
      cases ts with
      | nil => simp at hu
      | cons v vs =>
        rw [chainOk] at h
        split at h
        · rename_i hv
          simp only [List.head?_cons, Option.mem_def, Option.some.injEq] at hu
          rw [hu] at hv
          exact hv.symm
        · exact absurd h (by simp)
    · exact absurd h (by simp)

theorem chainOk_last {b b1 : Int} {l : List Txn} (h : chainOk b l = some b1) :
    b1 = (match l.getLast? with | some t => t.balanceAfter | none => b) := by
  induction l generalizing b with
  | nil =>
    rw [chainOk] at h
    injection h with h
    simp [h.symm]
  | cons t ts ih =>
    rw [chainOk] at h
    split at h
    · have hres := ih h
      cases ts with
      | nil => simpa using hres
      | cons v vs =>
        rw [List.getLast?_cons_cons]
        exact hres
    · exact absurd h (by simp)

/-- A completed write of either direction (the tail of `debit` and `credit`)
preserves the ledger invariant. -/
theorem ledgerInv_post_write {db0 db : DB} (inv : LedgerInv db0 db) (cid : String)
    (ty : TxnType) (a b nb : Int) (d r : String) (pm : Option PayMethod)
    (hc : getCustomer db cid = some b) :
    LedgerInv db0 (updateCustomer
      (createTransaction db cid ty a b nb d r pm TxnStatus.completed).2 cid nb) := by
  constructor
  · intro t htm
    rw [transactions_updateCustomer, createTransaction_snd] at htm
    rcases List.mem_append.mp htm with hm | hm
    · exact inv.allCompleted t hm
    · simp only [List.mem_singleton] at hm
      rw [hm]
      rfl
  · intro t htm
    rw [transactions_updateCustomer, createTransaction_snd] at htm
    show t.createdAt < db.nextId + 1
    rcases List.mem_append.mp htm with hm | hm
    · exact Nat.lt_succ_of_lt (inv.createdLt t hm)
    · simp only [List.mem_singleton] at hm
      rw [hm]
      exact Nat.lt_succ_self _
  · show List.Pairwise _ (db.transactions ++ [_])
    refine List.pairwise_append.mpr ⟨inv.createdMono, List.pairwise_singleton .., ?_⟩
    intro x hx y hy
    simp only [List.mem_singleton] at hy
    rw [hy]
    exact inv.createdLt x hx
  · intro cid' b0 h0
    obtain ⟨bal, hbal, hch⟩ := inv.chain cid' b0 h0
    by_cases hcc : cid' = cid
    · subst hcc
      have hbb : bal = b := by
        rw [hc] at hbal
        exact (Option.some.inj hbal).symm
      subst hbb
      refine ⟨nb, by simp [getCustomer_updateCustomer], ?_⟩
      show chainOk b0 ((db.transactions ++
        [(createTransaction db cid' ty a bal nb d r pm TxnStatus.completed).1]).filter
        (fun t => decide (t.customerId = cid' ∧ t.status = TxnStatus.completed))) = some nb
      rw [List.filter_append]
      have hsf : List.filter (fun t => decide (t.customerId = cid' ∧
          t.status = TxnStatus.completed))
          [(createTransaction db cid' ty a bal nb d r pm TxnStatus.completed).1] =
          [(createTransaction db cid' ty a bal nb d r pm TxnStatus.completed).1] := by
        simp [createTransaction_fst]
      rw [hsf, chainOk_append]
      rw [show (db.transactions.filter (fun t => decide (t.customerId = cid' ∧
        t.status = TxnStatus.completed))) = completedFor db cid' from rfl, hch]
      simp [createTransaction_fst]
    · refine ⟨bal, ?_, ?_⟩
      · rw [getCustomer_updateCustomer, if_neg hcc, getCustomer_createTransaction]
        exact hbal
      · show chainOk b0 ((db.transactions ++
          [(createTransaction db cid ty a b nb d r pm TxnStatus.completed).1]).filter
          (fun t => decide (t.customerId = cid' ∧ t.status = TxnStatus.completed))) = some bal
        rw [List.filter_append]
        have hsf : List.filter (fun t => decide (t.customerId = cid' ∧
            t.status = TxnStatus.completed))
            [(createTransaction db cid ty a b nb d r pm TxnStatus.completed).1] = [] := by
          simp [createTransaction_fst]
          intro hx
          exact absurd hx.symm hcc
        rw [hsf, List.append_nil]
        exact hch

/-- Every successful `debit`/`credit`/`completeReservation` call preserves
the ledger invariant (and failing calls are no-ops). -/
theorem ledgerInv_runOp {db0 db : DB} (inv : LedgerInv db0 db) (op : WalletOp) :
    LedgerInv db0 (runOp db op) := by
  cases op with
  | debitOp cid a d r =>
    cases hdeb : debit db cid a d r with
    | error e => simpa [runOp, hdeb] using inv
    | ok p =>
      obtain ⟨b, hc, _, _, _, hdb1⟩ := debit_ok_inv
        (show debit db cid a d r = .ok (p.1, p.2) by rw [hdeb])
      have hrun : runOp db (.debitOp cid a d r) = p.2 := by simp [runOp, hdeb]
      rw [hrun, hdb1]
      exact ledgerInv_post_write inv cid TxnType.debit a b (b - a) d r
        (some PayMethod.api_charge) hc
  | creditOp cid a d r pm =>
    cases hcred : credit db cid a d r pm with
    | error e => simpa [runOp, hcred] using inv
    | ok p =>
      obtain ⟨b, hc, _, _, hdb1⟩ := credit_ok_inv
        (show credit db cid a d r pm = .ok (p.1, p.2) by rw [hcred])
      have hrun : runOp db (.creditOp cid a d r pm) = p.2 := by simp [runOp, hcred]
      rw [hrun, hdb1]
      exact ledgerInv_post_write inv cid TxnType.credit a b (b + a) d r
        (some (pm.getD PayMethod.card)) hc
  | completeOp tid =>
    cases hcr : completeReservation db tid with
    | error e => simpa [runOp, hcr] using inv
    | ok p =>
      exfalso
      unfold completeReservation at hcr
      split at hcr
      · simp at hcr
      rename_i T hg
      split at hcr
      · simp at hcr
      rename_i hpend
      rw [not_not] at hpend
      have hmem := List.mem_of_find?_eq_some hg
      have hcompl := inv.allCompleted T hmem
      rw [hpend] at hcompl
      exact absurd hcompl (by simp)

/-- The invariant holds of a transaction-free initial store. -/
theorem ledgerInv_init (db0 : DB) (h0 : db0.transactions = []) :
    LedgerInv db0 db0 := by
  constructor
  · intro t htm; rw [h0] at htm; simp at htm
  · intro t htm; rw [h0] at htm; simp at htm
  · rw [h0]; exact List.Pairwise.nil
  · intro cid b0 hcb
    refine ⟨b0, hcb, ?_⟩
    show chainOk b0 (db0.transactions.filter _) = some b0
    rw [h0]
    rfl

/-- The invariant is preserved across any operation sequence. -/
theorem ledgerInv_runOps (db0 : DB) (ops : List WalletOp) :
    ∀ db, LedgerInv db0 db → LedgerInv db0 (runOps db ops) := by
  induction ops with
  | nil => intro db h; simpa [runOps] using h
  | cons op rest ih =>
    intro db h
    have hsplit : runOps db (op :: rest) = runOps (runOp db op) rest := by
      simp [runOps]
    rw [hsplit]
    exact ih _ (ledgerInv_runOp h op)

/-- C1: starting from a transaction-free store, after any sequence of
successful `debit`, `credit` and `completeReservation` calls, every account's
`completed` transactions, taken in creation order (their creation times are
strictly increasing along the stored list), chain — each record's
`balanceAfter` is the next record's `balanceBefore` — and the stored balance
equals the last completed record's `balanceAfter`, or the initial balance if
none exist. -/
theorem c1_balance_consistency (db0 : DB) (h0 : db0.transactions = [])
    (ops : List WalletOp) (cid : String) (b0 : Int)
    (hc : getCustomer db0 cid = some b0) :
    List.Pairwise (fun x y : Txn => x.createdAt < y.createdAt)
      (completedFor (runOps db0 ops) cid) ∧
    List.Chain' (fun x y : Txn => x.balanceAfter = y.balanceBefore)
      (completedFor (runOps db0 ops) cid) ∧
    getCustomer (runOps db0 ops) cid =
      some (match (completedFor (runOps db0 ops) cid).getLast? with
            | some t => t.balanceAfter
            | none => b0) := by
  have hinv := ledgerInv_runOps db0 ops db0 (ledgerInv_init db0 h0)
  obtain ⟨bal, hbal, hch⟩ := hinv.chain cid b0 hc
  refine ⟨?_, chainOk_chain' hch, ?_⟩
  · exact List.Pairwise.sublist (List.filter_sublist _) hinv.createdMono
  · rw [hbal, chainOk_last hch]

/-- C1 witness: a debit of 100, a credit of 50, and a (necessarily failing)
`completeReservation` against the one-customer store `dbA`. -/
theorem c1_witness :
    List.Pairwise (fun x y : Txn => x.createdAt < y.createdAt)
      (completedFor (runOps dbA [WalletOp.debitOp "A" 100 "d" "r1",
        WalletOp.creditOp "A" 50 "c" "r2" none, WalletOp.completeOp 0]) "A") ∧
    List.Chain' (fun x y : Txn => x.balanceAfter = y.balanceBefore)
      (completedFor (runOps dbA [WalletOp.debitOp "A" 100 "d" "r1",
        WalletOp.creditOp "A" 50 "c" "r2" none, WalletOp.completeOp 0]) "A") ∧
    getCustomer (runOps dbA [WalletOp.debitOp "A" 100 "d" "r1",
        WalletOp.creditOp "A" 50 "c" "r2" none, WalletOp.completeOp 0]) "A" =
      some (match (completedFor (runOps dbA [WalletOp.debitOp "A" 100 "d" "r1",
        WalletOp.creditOp "A" 50 "c" "r2" none, WalletOp.completeOp 0]) "A").getLast? with
            | some t => t.balanceAfter
            | none => 1000) :=
  c1_balance_consistency dbA rfl [WalletOp.debitOp "A" 100 "d" "r1",
    WalletOp.creditOp "A" 50 "c" "r2" none, WalletOp.completeOp 0] "A" 1000 (by decide)

end BusinessCac
